import Mathlib

/-
Verification of the coverage aggregation and classification engine of
vscode-coverage-gutters.

The embedding follows the two source files:
  * the renderer (`filterCoverage` / `filterLineCoverage` / `filterBranchCoverage`),
    which classify lines into `full` / `partial` / `none` sets, and
  * `CoverageParser` (`mergeSections` / `mergeLineCoverage` / `mergeBranchCoverage` /
    `filesToSections` / `addSections`), which merge parsed sections keyed by
    `title::file`.

JavaScript `Set` objects are modelled as `Finset`; JavaScript numbers occurring
in coverage data (line numbers, hit and taken counters, block and branch ids)
are nonnegative integers and are modelled as `Nat`.  The fields named `partial`
and `none` in the source record of classification sets are renamed
`partialSet` / `noneSet` (reserved words in Lean).
-/

namespace CovGutters

/-- One line's coverage record (shape produced by the external parsers):
1-based line number and a hit counter. -/
structure LineDetail where
  line : Nat
  hit : Nat
deriving DecidableEq

/-- One branch's coverage record: 1-based line number, block id, branch id and
a taken counter. -/
structure BranchDetail where
  line : Nat
  block : Nat
  branch : Nat
  taken : Nat
deriving DecidableEq

/-- The `lines` payload of a section: the detail list plus the `found` / `hit`
counters. -/
structure LinesData where
  details : List LineDetail
  found : Nat
  hit : Nat
deriving DecidableEq

/-- The `branches` payload of a section. -/
structure BranchesData where
  details : List BranchDetail
  found : Nat
  hit : Nat
deriving DecidableEq

/-- A parsed coverage section.  `lines` and `branches` are optional, mirroring
the `!section.lines` and `!coverage.branches` guards of the source. -/
structure Section where
  title : String
  file : String
  lines : Option LinesData
  branches : Option BranchesData
deriving DecidableEq

/-- The classifier's working state: the record of three sets built by
`filterCoverage` (source fields `full`, `partial`, `none`). -/
structure CoverageSets where
  full : Finset Nat
  partialSet : Finset Nat
  noneSet : Finset Nat
deriving DecidableEq

/-- The classifier's starting state, as initialised in `renderCoverage`:
three empty sets. -/
def emptySets : CoverageSets := { full := ∅, partialSet := ∅, noneSet := ∅ }

/-- Body of the `forEach` in `filterLineCoverage`, for one line detail.  For
`hit > 0` the source deletes the index from `none` when present (a plain
`Finset.erase` here) and adds it to `full`; for `hit == 0` it adds the index to
`none` only when the index is not already in `full`. -/
def lineStep (cs : CoverageSets) (d : LineDetail) : CoverageSets :=
  let line := d.line - 1
  if 0 < d.hit then
    { cs with noneSet := cs.noneSet.erase line, full := insert line cs.full }
  else
    if line ∈ cs.full then cs
    else { cs with noneSet := insert line cs.noneSet }

/-- `filterLineCoverage` of the renderer: a missing `lines` field contributes
nothing; otherwise the details with `line > 0` are folded through `lineStep`. -/
def filterLineCoverage (s : Section) (cs : CoverageSets) : CoverageSets :=
  match s.lines with
  | none => cs
  | some lns => (lns.details.filter (fun d => decide (0 < d.line))).foldl lineStep cs

/-- Body of the `forEach` in `filterBranchCoverage`, for one branch detail
that already passed the `taken === 0 && line > 0` filter: an index currently in
`full` is moved from `full` to `partialSet`. -/
def branchStep (cs : CoverageSets) (d : BranchDetail) : CoverageSets :=
  let line := d.line - 1
  if line ∈ cs.full then
    { cs with full := cs.full.erase line, partialSet := insert line cs.partialSet }
  else cs

/-- `filterBranchCoverage` of the renderer: a missing `branches` field
contributes nothing; otherwise the details with `taken === 0 && line > 0` are
folded through `branchStep`. -/
def filterBranchCoverage (s : Section) (cs : CoverageSets) : CoverageSets :=
  match s.branches with
  | none => cs
  | some br =>
      (br.details.filter (fun d => decide (d.taken = 0) && decide (0 < d.line))).foldl
        branchStep cs

/-- Body of the `forEach` over sections in `filterCoverage`: the line pass of a
section runs, then its branch pass, before the next section is processed. -/
def sectionStep (cs : CoverageSets) (s : Section) : CoverageSets :=
  filterBranchCoverage s (filterLineCoverage s cs)

/-- `filterCoverage` of the renderer. -/
def filterCoverage (sections : List Section) (cs : CoverageSets) : CoverageSets :=
  sections.foldl sectionStep cs

/-- The union of the `full` and `partialSet` classification sets: the lines
classified as covered to some degree. -/
def coveredSet (cs : CoverageSets) : Finset Nat :=
  cs.full ∪ cs.partialSet

/-- The line details carried by a section (empty when the `lines` field is
missing); used to state properties of the classifier. -/
def lineDetails (s : Section) : List LineDetail :=
  (s.lines.map LinesData.details).getD []

/-- The branch details carried by a section (empty when the `branches` field is
missing). -/
def branchDetails (s : Section) : List BranchDetail :=
  (s.branches.map BranchesData.details).getD []

/-- A single section reports 0-based index `n` as executed: some line detail
with a positive 1-based line number and a positive hit counter maps to `n`. -/
def reportedHitSec (s : Section) (n : Nat) : Prop :=
  ∃ d ∈ lineDetails s, 0 < d.line ∧ d.line - 1 = n ∧ 0 < d.hit

/-- Some section in the list reports 0-based index `n` as executed. -/
def reportedHit (ss : List Section) (n : Nat) : Prop :=
  ∃ s ∈ ss, reportedHitSec s n

/-- A single section carries, for 0-based index `n`, a branch detail with
`taken == 0` and a positive 1-based line number. -/
def branchZeroSec (s : Section) (n : Nat) : Prop :=
  ∃ d ∈ branchDetails s, d.taken = 0 ∧ 0 < d.line ∧ d.line - 1 = n

/-- Some section in the list carries an untaken branch for 0-based index `n`. -/
def branchZero (ss : List Section) (n : Nat) : Prop :=
  ∃ s ∈ ss, branchZeroSec s n

instance reportedHitSecDec (s : Section) (n : Nat) : Decidable (reportedHitSec s n) :=
  inferInstanceAs (Decidable (∃ d ∈ lineDetails s, 0 < d.line ∧ d.line - 1 = n ∧ 0 < d.hit))

instance reportedHitDec (ss : List Section) (n : Nat) : Decidable (reportedHit ss n) :=
  inferInstanceAs (Decidable (∃ s ∈ ss, reportedHitSec s n))

instance branchZeroSecDec (s : Section) (n : Nat) : Decidable (branchZeroSec s n) :=
  inferInstanceAs (Decidable (∃ d ∈ branchDetails s, d.taken = 0 ∧ 0 < d.line ∧ d.line - 1 = n))

instance branchZeroDec (ss : List Section) (n : Nat) : Decidable (branchZero ss n) :=
  inferInstanceAs (Decidable (∃ s ∈ ss, branchZeroSec s n))

/-- The set of line numbers that the incoming coverage reports with a positive
hit counter: `new Set(coverage.lines.details.filter(hit > 0).map(line))` in the
source. -/
def lcovHits (coverage : LinesData) : Finset Nat :=
  ((coverage.details.filter (fun d => decide (0 < d.hit))).map (fun d => d.line)).toFinset

/-- The update applied to one existing line detail during the merge:
`if (hits.has(line.line)) line.hit += 1`. -/
def updLine (hits : Finset Nat) (d : LineDetail) : LineDetail :=
  if d.line ∈ hits then { d with hit := d.hit + 1 } else d

/-- Accumulator of `mergeLineCoverage`: the mutable `hit`, `found`, `seen` and
`details` locals of the source. -/
structure LineMergeState where
  hit : Nat
  found : Nat
  seen : Finset Nat
  details : List LineDetail

/-- One step of the `map` over the existing details in `mergeLineCoverage`:
count it in `found`, record its line in `seen`, bump its hit counter when the
incoming coverage hit the line, and count it in `hit` when the (possibly
bumped) counter is positive. -/
def lineMergeStep (hits : Finset Nat) (a : LineMergeState) (d : LineDetail) : LineMergeState :=
  let d := updLine hits d
  { hit := if 0 < d.hit then a.hit + 1 else a.hit
    found := a.found + 1
    seen := insert d.line a.seen
    details := a.details ++ [d] }

/-- One step of the second pass of `mergeLineCoverage`, appending an incoming
detail whose line was not seen in the existing details. -/
def lineAppendStep (a : LineMergeState) (d : LineDetail) : LineMergeState :=
  { a with
    hit := if 0 < d.hit then a.hit + 1 else a.hit
    found := a.found + 1
    details := a.details ++ [d] }

/-- `mergeLineCoverage` of `CoverageParser`: fold the existing details through
`lineMergeStep`, then append the incoming details whose lines were not seen. -/
def mergeLineCoverage (existingCoverage coverage : LinesData) : LinesData :=
  let hits := lcovHits coverage
  let a1 := existingCoverage.details.foldl (lineMergeStep hits) ⟨0, 0, ∅, []⟩
  let a2 := (coverage.details.filter (fun d => decide (d.line ∉ a1.seen))).foldl
    lineAppendStep a1
  { details := a2.details, found := a2.found, hit := a2.hit }

/-- The composite key of a branch detail:
`[branch.line, branch.block, branch.branch].join(":")`. -/
def getKey (branch : BranchDetail) : String :=
  String.intercalate ":" [toString branch.line, toString branch.block, toString branch.branch]

/-- The set of keys that the incoming coverage reports with a positive taken
counter. -/
def takenKeys (coverage : BranchesData) : Finset String :=
  ((coverage.details.filter (fun d => decide (0 < d.taken))).map getKey).toFinset

/-- The update applied to one existing branch detail during the merge. -/
def updBranch (taken : Finset String) (d : BranchDetail) : BranchDetail :=
  if getKey d ∈ taken then { d with taken := d.taken + 1 } else d

/-- Accumulator of the branch merge, mirroring `LineMergeState`. -/
structure BranchMergeState where
  hit : Nat
  found : Nat
  seen : Finset String
  details : List BranchDetail

/-- One step of the `map` over the existing branch details in the merge. -/
def branchMergeStep (taken : Finset String) (a : BranchMergeState) (d : BranchDetail) :
    BranchMergeState :=
  let d := updBranch taken d
  { hit := if 0 < d.taken then a.hit + 1 else a.hit
    found := a.found + 1
    seen := insert (getKey d) a.seen
    details := a.details ++ [d] }

/-- One step of the second pass of the branch merge, appending an incoming
branch detail whose key was not seen. -/
def branchAppendStep (a : BranchMergeState) (d : BranchDetail) : BranchMergeState :=
  { a with
    hit := if 0 < d.taken then a.hit + 1 else a.hit
    found := a.found + 1
    details := a.details ++ [d] }

/-- The body of `mergeBranchCoverage` once both sections carry branch data. -/
def mergeBranchesData (existingCoverage coverage : BranchesData) : BranchesData :=
  let taken := takenKeys coverage
  let a1 := existingCoverage.details.foldl (branchMergeStep taken) ⟨0, 0, ∅, []⟩
  let a2 := (coverage.details.filter (fun d => decide (getKey d ∉ a1.seen))).foldl
    branchAppendStep a1
  { details := a2.details, found := a2.found, hit := a2.hit }

/-- `mergeBranchCoverage` of `CoverageParser`: no incoming branch data keeps
the existing branch data; no existing branch data adopts the incoming data;
otherwise the two payloads are merged. -/
def mergeBranchCoverage (existingCoverage coverage : Section) : Option BranchesData :=
  match coverage.branches with
  | none => existingCoverage.branches
  | some covBr =>
      match existingCoverage.branches with
      | none => some covBr
      | some exBr => some (mergeBranchesData exBr covBr)

/-- `mergeSections` of `CoverageParser`: spread the existing section and
replace its `lines` and `branches`.  The source reads `lines.details` of both
sections without a guard, so the merge is modelled as failing (`none`, where
the source would throw) when either section lacks line data. -/
def mergeSections (existingSection s : Section) : Option Section :=
  match existingSection.lines, s.lines with
  | some exL, some inL =>
      some { existingSection with
             lines := some (mergeLineCoverage exL inL)
             branches := mergeBranchCoverage existingSection s }
  | _, _ => none

/-- The merge-map key of a section: `[section.title, section.file].join("::")`. -/
def sectionKey (s : Section) : String :=
  String.intercalate "::" [s.title, s.file]

/-- Lookup in the coverage map, modelled as an association list in insertion
order (JavaScript `Map.get`). -/
def lookupSection (coverages : List (String × Section)) (key : String) : Option Section :=
  (coverages.find? (fun p => p.1 == key)).map (fun p => p.2)

/-- JavaScript `Map.set`: replace the entry in place when the key exists,
append a new entry otherwise. -/
def setSection (coverages : List (String × Section)) (key : String) (s : Section) :
    List (String × Section) :=
  if coverages.any (fun p => p.1 == key) then
    coverages.map (fun p => if p.1 == key then (key, s) else p)
  else coverages ++ [(key, s)]

/-- `addToSectionsMap` inside `addSections`: a fresh key stores the section
unchanged; an existing key merges the incoming section into the stored one. -/
def addToSectionsMap (coverages : List (String × Section)) (s : Section) :
    Option (List (String × Section)) :=
  let key := sectionKey s
  match lookupSection coverages key with
  | none => some (setSection coverages key s)
  | some existingSection =>
      (mergeSections existingSection s).map (fun m => setSection coverages key m)

/-- `addSections` of `CoverageParser`: fold the flattened section list into the
map, in order (the per-section additions run synchronously in array order). -/
def addSections (coverages : List (String × Section)) (data : List Section) :
    Option (List (String × Section)) :=
  data.foldlM addToSectionsMap coverages

/-- Modelled from the spec: the outcome of detecting one file's format and
running the matching external parser.  The format detector (`CoverageFile`,
not under src/) and the per-format parser packages are external; the spec
describes them as `parse(text) -> Section[] | failure`, with unrecognized
content contributing nothing. -/
inductive ParseOutcome where
  | parsed (sections : List Section)
  | failed
  | unrecognized
deriving DecidableEq

/-- The sections one file contributes in `filesToSections`: a successful parse
contributes its sections; a reported parse error is logged and the per-file
promise resolves with `[]`; an unrecognized format falls through the `switch`
and contributes nothing. -/
def fileSections (oracle : String → String → ParseOutcome) (fileName content : String) :
    List Section :=
  match oracle fileName content with
  | ParseOutcome.parsed ss => ss
  | ParseOutcome.failed => []
  | ParseOutcome.unrecognized => []

/-- `filesToSections` of `CoverageParser`: parse every file, flatten the
per-file section lists in file order, and fold them into the coverage map. -/
def filesToSections (oracle : String → String → ParseOutcome)
    (files : List (String × String)) : Option (List (String × Section)) :=
  let flattenedSections := (files.map (fun f => fileSections oracle f.1 f.2)).flatten
  addSections [] flattenedSections

/-- Concrete section: line 1 hit once, with an untaken branch on line 1. -/
def secHitBranch : Section :=
  { title := "t", file := "f",
    lines := some { details := [{ line := 1, hit := 1 }], found := 1, hit := 1 },
    branches := some { details := [{ line := 1, block := 0, branch := 0, taken := 0 }],
                       found := 1, hit := 0 } }

/-- Concrete section: line 1 hit once, no branch data. -/
def secHitOnly : Section :=
  { title := "t", file := "f",
    lines := some { details := [{ line := 1, hit := 1 }], found := 1, hit := 1 },
    branches := none }

/-- Concrete section: line 1 reported with zero hits, no branch data. -/
def secMissOnly : Section :=
  { title := "t", file := "f",
    lines := some { details := [{ line := 1, hit := 0 }], found := 1, hit := 0 },
    branches := none }

/-- Concrete section: line 1 reported with zero hits, with an untaken branch on
line 1. -/
def secMissBranch : Section :=
  { title := "t", file := "f",
    lines := some { details := [{ line := 1, hit := 0 }], found := 1, hit := 0 },
    branches := some { details := [{ line := 1, block := 0, branch := 0, taken := 0 }],
                       found := 1, hit := 0 } }

/-- The section of the spec's classification example: line details
`[(1,hit 2),(2,hit 0)]` and one untaken branch on line 1. -/
def secExample : Section :=
  { title := "t", file := "f",
    lines := some { details := [{ line := 1, hit := 2 }, { line := 2, hit := 0 }],
                    found := 2, hit := 1 },
    branches := some { details := [{ line := 1, block := 0, branch := 0, taken := 0 }],
                       found := 1, hit := 0 } }

/-- Concrete existing line data for the merge witnesses. -/
def linesExW : LinesData :=
  { details := [{ line := 5, hit := 3 }, { line := 7, hit := 0 }], found := 2, hit := 1 }

/-- Concrete incoming line data for the merge witnesses. -/
def linesIncW : LinesData :=
  { details := [{ line := 5, hit := 1 }, { line := 9, hit := 2 }], found := 2, hit := 2 }

/-- Concrete branch data for the branch-merge witness. -/
def branchesW : BranchesData :=
  { details := [{ line := 1, block := 0, branch := 0, taken := 1 }], found := 1, hit := 1 }

/-- Concrete section carrying branch data. -/
def secWithBranches : Section :=
  { title := "t", file := "f",
    lines := some { details := [{ line := 1, hit := 1 }], found := 1, hit := 1 },
    branches := some branchesW }

/-- Concrete section without branch data. -/
def secNoBranches : Section :=
  { title := "t", file := "f",
    lines := some { details := [{ line := 1, hit := 0 }], found := 1, hit := 0 },
    branches := none }

/-- The merged section expected from `mergeSections secWithBranches secNoBranches`. -/
def secMergedW : Section :=
  { title := "t", file := "f",
    lines := some { details := [{ line := 1, hit := 1 }], found := 1, hit := 1 },
    branches := some branchesW }

/-- Concrete parse oracle for the aggregation witness: the content `"bad"`
fails to parse, everything else parses to one section. -/
def oracleW : String → String → ParseOutcome :=
  fun _ content =>
    if content = "bad" then ParseOutcome.failed else ParseOutcome.parsed [secHitOnly]

/-- Concrete file list for the aggregation witness. -/
def filesW : List (String × String) := [("a.info", "ok"), ("b.xml", "bad")]

example :
    (filterCoverage
      [{ title := "t", file := "f",
         lines := some { details := [{ line := 1, hit := 2 }, { line := 2, hit := 0 }],
                         found := 2, hit := 1 },
         branches := some { details := [{ line := 1, block := 0, branch := 0, taken := 0 }],
                            found := 1, hit := 0 } }]
      emptySets).partialSet = {0} := by decide

example :
    mergeLineCoverage { details := [{ line := 5, hit := 3 }], found := 1, hit := 1 }
      { details := [{ line := 5, hit := 1 }], found := 1, hit := 1 }
    = { details := [{ line := 5, hit := 4 }], found := 1, hit := 1 } := by decide

example :
    mergeLineCoverage { details := [{ line := 5, hit := 3 }], found := 1, hit := 1 }
      { details := [{ line := 5, hit := 0 }, { line := 6, hit := 2 }], found := 2, hit := 1 }
    = { details := [{ line := 5, hit := 3 }, { line := 6, hit := 2 }], found := 2, hit := 2 } := by
  decide

/-- An invariant that every fold step preserves holds of the fold's result. -/
theorem foldl_inv {σ α : Type} (P : σ → Prop) (f : σ → α → σ) :
    ∀ (l : List α) (s : σ), P s → (∀ t a, a ∈ l → P t → P (f t a)) → P (l.foldl f s) := by
  intro l
  induction l with
  | nil => intro s h _; exact h
  | cons a l ih =>
      intro s h hstep
      exact ih (f s a) (hstep s a (List.mem_cons_self a l) h)
        (fun t b hb => hstep t b (List.mem_cons_of_mem a hb))

theorem filterLineCoverage_none (s : Section) (hs : s.lines = none) (cs : CoverageSets) :
    filterLineCoverage s cs = cs := by
  unfold filterLineCoverage
  rw [hs]

theorem filterLineCoverage_some (s : Section) (lns : LinesData) (hs : s.lines = some lns)
    (cs : CoverageSets) :
    filterLineCoverage s cs =
      (lns.details.filter (fun d => decide (0 < d.line))).foldl lineStep cs := by
  unfold filterLineCoverage
  rw [hs]

theorem filterBranchCoverage_none (s : Section) (hs : s.branches = none) (cs : CoverageSets) :
    filterBranchCoverage s cs = cs := by
  unfold filterBranchCoverage
  rw [hs]

theorem filterBranchCoverage_some (s : Section) (br : BranchesData) (hs : s.branches = some br)
    (cs : CoverageSets) :
    filterBranchCoverage s cs =
      (br.details.filter (fun d => decide (d.taken = 0) && decide (0 < d.line))).foldl
        branchStep cs := by
  unfold filterBranchCoverage
  rw [hs]

theorem lineStep_full_mono (cs : CoverageSets) (d : LineDetail) :
    cs.full ⊆ (lineStep cs d).full := by
  unfold lineStep
  dsimp only
  split_ifs with h1 h2
  · exact Finset.subset_insert _ _
  · exact Finset.Subset.refl _
  · exact Finset.Subset.refl _

theorem lineStep_partialSet_eq (cs : CoverageSets) (d : LineDetail) :
    (lineStep cs d).partialSet = cs.partialSet := by
  unfold lineStep
  dsimp only
  split_ifs <;> rfl

theorem branchStep_full_subset (cs : CoverageSets) (d : BranchDetail) :
    (branchStep cs d).full ⊆ cs.full := by
  unfold branchStep
  dsimp only
  split_ifs with h1
  · exact Finset.erase_subset _ _
  · exact Finset.Subset.refl _

theorem branchStep_noneSet_eq (cs : CoverageSets) (d : BranchDetail) :
    (branchStep cs d).noneSet = cs.noneSet := by
  unfold branchStep
  dsimp only
  split_ifs <;> rfl

theorem lineStep_disj (cs : CoverageSets) (d : LineDetail)
    (h : Disjoint cs.full cs.noneSet) :
    Disjoint (lineStep cs d).full (lineStep cs d).noneSet := by
  unfold lineStep
  dsimp only
  split_ifs with h1 h2
  · rw [Finset.disjoint_left] at h ⊢
    intro x hx hxn
    rcases Finset.mem_insert.mp hx with rfl | hx
    · exact Finset.not_mem_erase _ _ hxn
    · exact h hx (Finset.mem_of_mem_erase hxn)
  · exact h
  · rw [Finset.disjoint_left] at h ⊢
    intro x hx hxn
    rcases Finset.mem_insert.mp hxn with rfl | hxn
    · exact h2 hx
    · exact h hx hxn

theorem branchStep_disj (cs : CoverageSets) (d : BranchDetail)
    (h : Disjoint cs.full cs.noneSet) :
    Disjoint (branchStep cs d).full (branchStep cs d).noneSet := by
  rw [branchStep_noneSet_eq]
  exact Finset.disjoint_of_subset_left (branchStep_full_subset cs d) h

theorem filterLineCoverage_disj (s : Section) (cs : CoverageSets)
    (h : Disjoint cs.full cs.noneSet) :
    Disjoint (filterLineCoverage s cs).full (filterLineCoverage s cs).noneSet := by
  rcases hs : s.lines with _ | lns
  · rw [filterLineCoverage_none s hs]; exact h
  · rw [filterLineCoverage_some s lns hs]
    exact foldl_inv (fun t => Disjoint t.full t.noneSet) lineStep _ cs h
      (fun t a _ ht => lineStep_disj t a ht)

theorem filterBranchCoverage_disj (s : Section) (cs : CoverageSets)
    (h : Disjoint cs.full cs.noneSet) :
    Disjoint (filterBranchCoverage s cs).full (filterBranchCoverage s cs).noneSet := by
  rcases hs : s.branches with _ | br
  · rw [filterBranchCoverage_none s hs]; exact h
  · rw [filterBranchCoverage_some s br hs]
    exact foldl_inv (fun t => Disjoint t.full t.noneSet) branchStep _ cs h
      (fun t a _ ht => branchStep_disj t a ht)

/-- C1 (amended): for every sequence of sections fed to the classifier, the
final `full` and `none` sets are disjoint.  (The `partial` set, by contrast,
can intersect both — see the counterexample for the original claim.) -/
theorem filterCoverage_full_none_disjoint (ss : List Section) :
    Disjoint (filterCoverage ss emptySets).full (filterCoverage ss emptySets).noneSet := by
  unfold filterCoverage
  refine foldl_inv (fun t => Disjoint t.full t.noneSet) sectionStep ss emptySets ?_ ?_
  · simp [emptySets]
  · intro t s _ ht
    exact filterBranchCoverage_disj s _ (filterLineCoverage_disj s t ht)

theorem lineStep_covered_mono (cs : CoverageSets) (d : LineDetail) :
    coveredSet cs ⊆ coveredSet (lineStep cs d) := by
  unfold coveredSet
  rw [lineStep_partialSet_eq]
  exact Finset.union_subset_union_left (lineStep_full_mono cs d)

theorem branchStep_covered_mono (cs : CoverageSets) (d : BranchDetail) :
    coveredSet cs ⊆ coveredSet (branchStep cs d) := by
  unfold branchStep coveredSet
  dsimp only
  split_ifs with h1
  · intro x hx
    rcases Finset.mem_union.mp hx with hx | hx
    · by_cases hx0 : x = d.line - 1
      · exact Finset.mem_union_right _ (hx0 ▸ Finset.mem_insert_self _ _)
      · exact Finset.mem_union_left _ (Finset.mem_erase.mpr ⟨hx0, hx⟩)
    · exact Finset.mem_union_right _ (Finset.mem_insert_of_mem hx)
  · exact Finset.Subset.refl _

theorem branchStep_covered_sub (cs : CoverageSets) (d : BranchDetail) :
    coveredSet (branchStep cs d) ⊆ coveredSet cs := by
  unfold branchStep coveredSet
  dsimp only
  split_ifs with h1
  · intro x hx
    rcases Finset.mem_union.mp hx with hx | hx
    · exact Finset.mem_union_left _ (Finset.mem_of_mem_erase hx)
    · rcases Finset.mem_insert.mp hx with rfl | hx
      · exact Finset.mem_union_left _ h1
      · exact Finset.mem_union_right _ hx
  · exact Finset.Subset.refl _

theorem filterLineCoverage_covered_mono (s : Section) (cs : CoverageSets) :
    coveredSet cs ⊆ coveredSet (filterLineCoverage s cs) := by
  rcases hs : s.lines with _ | lns
  · rw [filterLineCoverage_none s hs]
  · rw [filterLineCoverage_some s lns hs]
    exact foldl_inv (fun t => coveredSet cs ⊆ coveredSet t) lineStep _ cs
      (Finset.Subset.refl _)
      (fun t a _ ht => Finset.Subset.trans ht (lineStep_covered_mono t a))

theorem filterBranchCoverage_covered_mono (s : Section) (cs : CoverageSets) :
    coveredSet cs ⊆ coveredSet (filterBranchCoverage s cs) := by
  rcases hs : s.branches with _ | br
  · rw [filterBranchCoverage_none s hs]
  · rw [filterBranchCoverage_some s br hs]
    exact foldl_inv (fun t => coveredSet cs ⊆ coveredSet t) branchStep _ cs
      (Finset.Subset.refl _)
      (fun t a _ ht => Finset.Subset.trans ht (branchStep_covered_mono t a))

theorem filterBranchCoverage_covered_sub (s : Section) (cs : CoverageSets) :
    coveredSet (filterBranchCoverage s cs) ⊆ coveredSet cs := by
  rcases hs : s.branches with _ | br
  · rw [filterBranchCoverage_none s hs]
  · rw [filterBranchCoverage_some s br hs]
    exact foldl_inv (fun t => coveredSet t ⊆ coveredSet cs) branchStep _ cs
      (Finset.Subset.refl _)
      (fun t a _ ht => Finset.Subset.trans (branchStep_covered_sub t a) ht)

theorem sectionStep_covered_mono (cs : CoverageSets) (s : Section) :
    coveredSet cs ⊆ coveredSet (sectionStep cs s) := by
  unfold sectionStep
  exact Finset.Subset.trans (filterLineCoverage_covered_mono s cs)
    (filterBranchCoverage_covered_mono s _)

/-- A line detail with a positive line number and a positive hit counter puts
its 0-based index into `full` by the end of the section's line pass. -/
theorem filterLineCoverage_full_of_hit (s : Section) (lns : LinesData)
    (hs : s.lines = some lns) (d : LineDetail) (hd : d ∈ lns.details)
    (hl : 0 < d.line) (hh : 0 < d.hit) (cs : CoverageSets) :
    d.line - 1 ∈ (filterLineCoverage s cs).full := by
  rw [filterLineCoverage_some s lns hs]
  have hdf : d ∈ lns.details.filter (fun d => decide (0 < d.line)) :=
    List.mem_filter.mpr ⟨hd, by simpa using hl⟩
  obtain ⟨l1, l2, hsplit⟩ := List.append_of_mem hdf
  rw [hsplit, List.foldl_append, List.foldl_cons]
  have hmem : d.line - 1 ∈ (lineStep (l1.foldl lineStep cs) d).full := by
    unfold lineStep
    dsimp only
    rw [if_pos hh]
    exact Finset.mem_insert_self _ _
  exact foldl_inv (fun t => d.line - 1 ∈ t.full) lineStep l2 _ hmem
    (fun t a _ ht => lineStep_full_mono t a ht)

/-- C2 (amended): every line reported with `hit>0` by at least one processed
section ends classification in `full` or `partial`.  (It can additionally end
in `none` — see the counterexample for the original claim.) -/
theorem reportedHit_ends_covered (ss : List Section) (n : Nat) (h : reportedHit ss n) :
    n ∈ (filterCoverage ss emptySets).full ∨
      n ∈ (filterCoverage ss emptySets).partialSet := by
  suffices hn : n ∈ coveredSet (filterCoverage ss emptySets) by
    exact Finset.mem_union.mp hn
  obtain ⟨s, hsmem, d, hd, hl, hn', hh⟩ := h
  have hlns : ∃ lns, s.lines = some lns ∧ d ∈ lns.details := by
    rcases hs : s.lines with _ | lns
    · rw [lineDetails, hs] at hd; cases hd
    · rw [lineDetails, hs] at hd; exact ⟨lns, rfl, hd⟩
  obtain ⟨lns, hs, hd'⟩ := hlns
  obtain ⟨l1, l2, rfl⟩ := List.append_of_mem hsmem
  unfold filterCoverage
  rw [List.foldl_append, List.foldl_cons]
  have h1 : n ∈ coveredSet (sectionStep (l1.foldl sectionStep emptySets) s) := by
    unfold sectionStep
    apply filterBranchCoverage_covered_mono
    apply Finset.mem_union_left
    exact hn' ▸ filterLineCoverage_full_of_hit s lns hs d hd' hl hh _
  exact foldl_inv (fun t => n ∈ coveredSet t) sectionStep l2 _ h1
    (fun t a _ ht => sectionStep_covered_mono t a ht)

/-- C2 (witness): instantiating the amended claim on one concrete section. -/
theorem reportedHit_ends_covered_witness :
    reportedHit [secHitOnly] 0 ∧
      (0 ∈ (filterCoverage [secHitOnly] emptySets).full ∨
        0 ∈ (filterCoverage [secHitOnly] emptySets).partialSet) :=
  ⟨by decide, reportedHit_ends_covered [secHitOnly] 0 (by decide)⟩

/-- C2 (counterexample): index 0 is reported hit by the first section, is
downgraded to `partial` by its untaken branch, and is then re-added to the
`none` set by a second section reporting zero hits — so a line reported with
`hit>0` can end up in the final `none` set. -/
theorem reportedHit_none_cex :
    reportedHit [secHitBranch, secMissOnly] 0 ∧
      0 ∈ (filterCoverage [secHitBranch, secMissOnly] emptySets).noneSet := by
  exact ⟨by decide, by decide⟩

/-- Every member of the covered set after a line pass was already covered or is
reported hit by the section. -/
theorem filterLineCoverage_covered_cases (s : Section) (cs : CoverageSets) (m : Nat)
    (hm : m ∈ coveredSet (filterLineCoverage s cs)) :
    m ∈ coveredSet cs ∨ reportedHitSec s m := by
  rcases hs : s.lines with _ | lns
  · rw [filterLineCoverage_none s hs] at hm; exact Or.inl hm
  · rw [filterLineCoverage_some s lns hs] at hm
    have hdet : lineDetails s = lns.details := by rw [lineDetails, hs]; rfl
    refine foldl_inv
      (fun t => ∀ m' ∈ coveredSet t, m' ∈ coveredSet cs ∨ reportedHitSec s m')
      lineStep _ cs (fun m' hm' => Or.inl hm') ?_ m hm
    intro t a ha hP m' hm'
    have hal := List.mem_filter.mp ha
    have haline : 0 < a.line := by simpa using hal.2
    unfold lineStep at hm'
    dsimp only at hm'
    split_ifs at hm' with h1 h2
    · unfold coveredSet at hm'
      rcases Finset.mem_union.mp hm' with hm' | hm'
      · rcases Finset.mem_insert.mp hm' with rfl | hm'
        · exact Or.inr ⟨a, hdet ▸ hal.1, haline, rfl, h1⟩
        · exact hP m' (Finset.mem_union_left _ hm')
      · exact hP m' (Finset.mem_union_right _ hm')
    · exact hP m' hm'
    · exact hP m' hm'

/-- C10: every line index in the final `partial` set was reported with `hit>0`
by at least one processed section. -/
theorem partialSet_from_reportedHit (ss : List Section) (n : Nat)
    (h : n ∈ (filterCoverage ss emptySets).partialSet) : reportedHit ss n := by
  suffices hinv : ∀ m ∈ coveredSet (filterCoverage ss emptySets), reportedHit ss m by
    exact hinv n (Finset.mem_union_right _ h)
  unfold filterCoverage
  refine foldl_inv (fun t => ∀ m ∈ coveredSet t, reportedHit ss m) sectionStep ss
    emptySets ?_ ?_
  · intro m hm
    simp [coveredSet, emptySets] at hm
  · intro t s hs ht m hm
    have hm1 : m ∈ coveredSet (filterLineCoverage s t) :=
      filterBranchCoverage_covered_sub s _ hm
    rcases filterLineCoverage_covered_cases s t m hm1 with h' | h'
    · exact ht m h'
    · exact ⟨s, hs, h'⟩

/-- C10 (witness): instantiating the claim on one concrete section with an
untaken branch. -/
theorem partialSet_from_reportedHit_witness :
    0 ∈ (filterCoverage [secHitBranch] emptySets).partialSet ∧
      reportedHit [secHitBranch] 0 :=
  ⟨by decide, partialSet_from_reportedHit [secHitBranch] 0 (by decide)⟩

theorem filterLineCoverage_partialSet (s : Section) (cs : CoverageSets) :
    (filterLineCoverage s cs).partialSet = cs.partialSet := by
  rcases hs : s.lines with _ | lns
  · rw [filterLineCoverage_none s hs]
  · rw [filterLineCoverage_some s lns hs]
    exact foldl_inv (fun t => t.partialSet = cs.partialSet) lineStep _ cs rfl
      (fun t a _ ht => (lineStep_partialSet_eq t a).trans ht)

/-- The branch pass preserves the two-state invariant for an index `n`: either
`n` is in `full` and not in `partialSet`, or the other way round. -/
theorem branchStep_pres_inv (n : Nat) (cs : CoverageSets) (e : BranchDetail)
    (h : (n ∈ cs.full ∧ n ∉ cs.partialSet) ∨ (n ∉ cs.full ∧ n ∈ cs.partialSet)) :
    (n ∈ (branchStep cs e).full ∧ n ∉ (branchStep cs e).partialSet) ∨
      (n ∉ (branchStep cs e).full ∧ n ∈ (branchStep cs e).partialSet) := by
  unfold branchStep
  dsimp only
  split_ifs with h1
  · by_cases hn : n = e.line - 1
    · subst hn
      exact Or.inr ⟨Finset.not_mem_erase _ _, Finset.mem_insert_self _ _⟩
    · rcases h with ⟨hf, hp⟩ | ⟨hf, hp⟩
      · exact Or.inl ⟨Finset.mem_erase.mpr ⟨hn, hf⟩,
          fun hx => hp ((Finset.mem_insert.mp hx).resolve_left hn)⟩
      · exact Or.inr ⟨fun hx => hf (Finset.mem_of_mem_erase hx),
          Finset.mem_insert_of_mem hp⟩
  · exact h

/-- Once an index sits in `partialSet` and outside `full`, the branch pass
keeps it there. -/
theorem branchStep_pres_right (n : Nat) (cs : CoverageSets) (e : BranchDetail)
    (h : n ∉ cs.full ∧ n ∈ cs.partialSet) :
    n ∉ (branchStep cs e).full ∧ n ∈ (branchStep cs e).partialSet := by
  unfold branchStep
  dsimp only
  split_ifs with h1
  · exact ⟨fun hx => h.1 (Finset.mem_of_mem_erase hx), Finset.mem_insert_of_mem h.2⟩
  · exact h

/-- Processing the untaken branch detail for index `n` moves `n` out of `full`
and into `partialSet` (or leaves it there). -/
theorem branchStep_downgrades (n : Nat) (cs : CoverageSets) (e : BranchDetail)
    (he : e.line - 1 = n)
    (h : (n ∈ cs.full ∧ n ∉ cs.partialSet) ∨ (n ∉ cs.full ∧ n ∈ cs.partialSet)) :
    n ∉ (branchStep cs e).full ∧ n ∈ (branchStep cs e).partialSet := by
  subst he
  unfold branchStep
  dsimp only
  split_ifs with h1
  · exact ⟨Finset.not_mem_erase _ _, Finset.mem_insert_self _ _⟩
  · rcases h with ⟨hf, _⟩ | hr
    · exact absurd hf h1
    · exact hr

/-- C3 (amended): within a single classified section, a line reported with
`hit>0` that also carries a branch detail with `taken==0` classifies as
`partial` and not as `full`.  (Across several sections the guarantee fails —
see the counterexample for the original claim.) -/
theorem single_section_branch_downgrade (s : Section) (lns : LinesData) (br : BranchesData)
    (hsl : s.lines = some lns) (hsb : s.branches = some br)
    (d : LineDetail) (hd : d ∈ lns.details) (hdl : 0 < d.line) (hdh : 0 < d.hit)
    (e : BranchDetail) (he : e ∈ br.details) (het : e.taken = 0) (hel : e.line = d.line) :
    d.line - 1 ∈ (filterCoverage [s] emptySets).partialSet ∧
      d.line - 1 ∉ (filterCoverage [s] emptySets).full := by
  have hfc : filterCoverage [s] emptySets =
      filterBranchCoverage s (filterLineCoverage s emptySets) := rfl
  have h1 : d.line - 1 ∈ (filterLineCoverage s emptySets).full :=
    filterLineCoverage_full_of_hit s lns hsl d hd hdl hdh emptySets
  have h2 : (filterLineCoverage s emptySets).partialSet = ∅ := by
    rw [filterLineCoverage_partialSet]; rfl
  rw [hfc, filterBranchCoverage_some s br hsb]
  have hef : e ∈ br.details.filter
      (fun x => decide (x.taken = 0) && decide (0 < x.line)) := by
    refine List.mem_filter.mpr ⟨he, ?_⟩
    have : 0 < e.line := hel ▸ hdl
    simp [het, this]
  obtain ⟨l1, l2, hsplit⟩ := List.append_of_mem hef
  rw [hsplit, List.foldl_append, List.foldl_cons]
  have hQ1 : (d.line - 1 ∈ (filterLineCoverage s emptySets).full ∧
        d.line - 1 ∉ (filterLineCoverage s emptySets).partialSet) ∨
      (d.line - 1 ∉ (filterLineCoverage s emptySets).full ∧
        d.line - 1 ∈ (filterLineCoverage s emptySets).partialSet) :=
    Or.inl ⟨h1, by rw [h2]; exact Finset.not_mem_empty _⟩
  have hQmid := foldl_inv
    (fun t => (d.line - 1 ∈ t.full ∧ d.line - 1 ∉ t.partialSet) ∨
      (d.line - 1 ∉ t.full ∧ d.line - 1 ∈ t.partialSet))
    branchStep l1 _ hQ1 (fun t a _ ht => branchStep_pres_inv _ t a ht)
  have hR := branchStep_downgrades (d.line - 1) _ e (by rw [hel]) hQmid
  have hfinal := foldl_inv
    (fun t => d.line - 1 ∉ t.full ∧ d.line - 1 ∈ t.partialSet)
    branchStep l2 _ hR (fun t a _ ht => branchStep_pres_right _ t a ht)
  exact ⟨hfinal.2, hfinal.1⟩

/-- C3 (witness): the amended claim instantiated on the spec's example
section. -/
theorem single_section_branch_downgrade_witness :
    0 ∈ (filterCoverage [secExample] emptySets).partialSet ∧
      0 ∉ (filterCoverage [secExample] emptySets).full :=
  single_section_branch_downgrade secExample
    { details := [{ line := 1, hit := 2 }, { line := 2, hit := 0 }], found := 2, hit := 1 }
    { details := [{ line := 1, block := 0, branch := 0, taken := 0 }], found := 1, hit := 0 }
    rfl rfl { line := 1, hit := 2 } (by decide) (by decide) (by decide)
    { line := 1, block := 0, branch := 0, taken := 0 } (by decide) rfl rfl

/-- C3 (counterexample): the first section reports line 1 unhit but with an
untaken branch (so index 0 lands in `none`, not `full`, and the branch pass
does nothing); the second section hits line 1 and re-adds index 0 to `full`.
The line was reported with `hit>0` and carries an untaken branch in a processed
section, yet it ends in `full` and not in `partial`. -/
theorem branch_downgrade_cex :
    reportedHit [secMissBranch, secHitOnly] 0 ∧
      branchZero [secMissBranch, secHitOnly] 0 ∧
      0 ∈ (filterCoverage [secMissBranch, secHitOnly] emptySets).full ∧
      0 ∉ (filterCoverage [secMissBranch, secHitOnly] emptySets).partialSet := by
  exact ⟨by decide, by decide, by decide, by decide⟩

/-- C8: the spec's classification example — one section with line details
`[(line 1, hit 2), (line 2, hit 0)]` and branch details
`[(line 1, block 0, branch 0, taken 0)]` classifies to `full = {}`,
`partial = {0}` and `none = {1}`. -/
theorem classification_example :
    (filterCoverage [secExample] emptySets).full = ∅ ∧
      (filterCoverage [secExample] emptySets).partialSet = {0} ∧
      (filterCoverage [secExample] emptySets).noneSet = {1} := by
  exact ⟨by decide, by decide, by decide⟩

/-- C1 (counterexample): feeding the classifier a section whose only line is
hit but carries an untaken branch, followed by a section that hits the same
line again, leaves index 0 in both `full` and `partialSet`, so the three
resulting sets are not pairwise disjoint. -/
theorem filterCoverage_disjointness_cex :
    0 ∈ (filterCoverage [secHitBranch, secHitOnly] emptySets).full ∧
      0 ∈ (filterCoverage [secHitBranch, secHitOnly] emptySets).partialSet ∧
      ¬ Disjoint (filterCoverage [secHitBranch, secHitOnly] emptySets).full
          (filterCoverage [secHitBranch, secHitOnly] emptySets).partialSet := by
  refine ⟨by decide, by decide, fun h => ?_⟩
  exact absurd (by decide : (0 : Nat) ∈
      (filterCoverage [secHitBranch, secHitOnly] emptySets).partialSet)
    (Finset.disjoint_left.mp h (by decide))

theorem updLine_line (hits : Finset Nat) (d : LineDetail) :
    (updLine hits d).line = d.line := by
  unfold updLine
  split_ifs <;> rfl

theorem foldl_lineMergeStep_details (hits : Finset Nat) (l : List LineDetail) :
    ∀ a : LineMergeState,
      (l.foldl (lineMergeStep hits) a).details = a.details ++ l.map (updLine hits) := by
  induction l with
  | nil => intro a; simp
  | cons d l ih =>
      intro a
      rw [List.foldl_cons, ih]
      simp [lineMergeStep]

theorem foldl_lineMergeStep_seen (hits : Finset Nat) (l : List LineDetail) :
    ∀ a : LineMergeState,
      (l.foldl (lineMergeStep hits) a).seen = a.seen ∪ (l.map (fun d => d.line)).toFinset := by
  induction l with
  | nil => intro a; simp
  | cons d l ih =>
      intro a
      rw [List.foldl_cons, ih]
      show insert (updLine hits d).line a.seen ∪ (l.map (fun d => d.line)).toFinset = _
      rw [updLine_line, List.map_cons, List.toFinset_cons, Finset.insert_union,
        Finset.union_insert]

theorem foldl_lineMergeStep_found (hits : Finset Nat) (l : List LineDetail) :
    ∀ a : LineMergeState, (l.foldl (lineMergeStep hits) a).found = a.found + l.length := by
  induction l with
  | nil => intro a; simp
  | cons d l ih =>
      intro a
      rw [List.foldl_cons, ih]
      show a.found + 1 + l.length = a.found + (l.length + 1)
      omega

theorem foldl_lineMergeStep_hit (hits : Finset Nat) (l : List LineDetail) :
    ∀ a : LineMergeState,
      (l.foldl (lineMergeStep hits) a).hit =
        a.hit + ((l.map (updLine hits)).filter (fun d => decide (0 < d.hit))).length := by
  induction l with
  | nil => intro a; simp
  | cons d l ih =>
      intro a
      rw [List.foldl_cons, ih]
      show (if 0 < (updLine hits d).hit then a.hit + 1 else a.hit) + _ = _
      rw [List.map_cons, List.filter_cons]
      by_cases hpos : 0 < (updLine hits d).hit
      · rw [if_pos hpos, if_pos (by simpa using hpos)]
        simp [Nat.add_comm, Nat.add_assoc, Nat.add_left_comm]
      · rw [if_neg hpos, if_neg (by simpa using hpos)]

theorem foldl_lineAppendStep_details (l : List LineDetail) :
    ∀ a : LineMergeState, (l.foldl lineAppendStep a).details = a.details ++ l := by
  induction l with
  | nil => intro a; simp
  | cons d l ih =>
      intro a
      rw [List.foldl_cons, ih]
      simp [lineAppendStep]

theorem foldl_lineAppendStep_found (l : List LineDetail) :
    ∀ a : LineMergeState, (l.foldl lineAppendStep a).found = a.found + l.length := by
  induction l with
  | nil => intro a; simp
  | cons d l ih =>
      intro a
      rw [List.foldl_cons, ih]
      show a.found + 1 + l.length = a.found + (l.length + 1)
      omega

theorem foldl_lineAppendStep_hit (l : List LineDetail) :
    ∀ a : LineMergeState,
      (l.foldl lineAppendStep a).hit =
        a.hit + (l.filter (fun d => decide (0 < d.hit))).length := by
  induction l with
  | nil => intro a; simp
  | cons d l ih =>
      intro a
      rw [List.foldl_cons, ih]
      show (if 0 < d.hit then a.hit + 1 else a.hit) + _ = _
      rw [List.filter_cons]
      by_cases hpos : 0 < d.hit
      · rw [if_pos hpos, if_pos (by simpa using hpos)]
        simp [Nat.add_comm, Nat.add_assoc, Nat.add_left_comm]
      · rw [if_neg hpos, if_neg (by simpa using hpos)]

/-- Closed form of `mergeLineCoverage`: the existing details updated in place,
followed by the incoming details whose line is new; `found` counts every kept
detail and `hit` counts the kept details with a positive counter. -/
theorem mergeLineCoverage_eq (ex inc : LinesData) :
    mergeLineCoverage ex inc =
      { details := ex.details.map (updLine (lcovHits inc)) ++
          inc.details.filter
            (fun d => decide (d.line ∉ (ex.details.map (fun x => x.line)).toFinset))
        found := ex.details.length +
          (inc.details.filter
            (fun d => decide (d.line ∉ (ex.details.map (fun x => x.line)).toFinset))).length
        hit := ((ex.details.map (updLine (lcovHits inc))).filter
            (fun d => decide (0 < d.hit))).length +
          ((inc.details.filter
              (fun d => decide (d.line ∉ (ex.details.map (fun x => x.line)).toFinset))).filter
            (fun d => decide (0 < d.hit))).length } := by
  unfold mergeLineCoverage
  have hseen : (ex.details.foldl (lineMergeStep (lcovHits inc))
      { hit := 0, found := 0, seen := ∅, details := [] }).seen =
      (ex.details.map (fun x => x.line)).toFinset := by
    rw [foldl_lineMergeStep_seen]
    exact Finset.empty_union _
  rw [LinesData.mk.injEq]
  refine ⟨?_, ?_, ?_⟩
  · rw [foldl_lineAppendStep_details, foldl_lineMergeStep_details, hseen]
    simp
  · rw [foldl_lineAppendStep_found, foldl_lineMergeStep_found, hseen]
    simp
  · rw [foldl_lineAppendStep_hit, foldl_lineMergeStep_hit, hseen]
    simp

theorem mem_lcovHits (inc : LinesData) (n : Nat) :
    n ∈ lcovHits inc ↔ ∃ d2 ∈ inc.details, d2.line = n ∧ 0 < d2.hit := by
  unfold lcovHits
  rw [List.mem_toFinset]
  constructor
  · intro h
    obtain ⟨b, hb, hbn⟩ := List.mem_map.mp h
    have hb' := List.mem_filter.mp hb
    exact ⟨b, hb'.1, hbn, by simpa using hb'.2⟩
  · intro ⟨b, hb, hbn, hbh⟩
    exact List.mem_map.mpr ⟨b, List.mem_filter.mpr ⟨hb, by simpa using hbh⟩, hbn⟩

/-- C4: in the merged line data, every detail of the existing section keeps its
position and has its hit counter incremented by exactly one when the incoming
section reports that line with `hit>0`, and is unchanged otherwise. -/
theorem mergeLineCoverage_existing_update (ex inc : LinesData) :
    (mergeLineCoverage ex inc).details.take ex.details.length =
      ex.details.map (fun d =>
        if ∃ d2 ∈ inc.details, d2.line = d.line ∧ 0 < d2.hit then
          { d with hit := d.hit + 1 }
        else d) := by
  rw [mergeLineCoverage_eq]
  show (ex.details.map (updLine (lcovHits inc)) ++ _).take ex.details.length = _
  rw [← List.length_map ex.details (updLine (lcovHits inc)), List.take_left]
  refine List.map_congr_left ?_
  intro d _
  unfold updLine
  by_cases h : d.line ∈ lcovHits inc
  · rw [if_pos h, if_pos ((mem_lcovHits inc d.line).mp h)]
  · rw [if_neg h, if_neg (fun hc => h ((mem_lcovHits inc d.line).mpr hc))]

/-- C5: for well-formed inputs (each input's details list one entry per line,
which is the §3 `Section` shape), the merged `found` equals the number of
distinct line numbers across both inputs' details, and the merged `hit` equals
the number of merged details with a positive hit counter — neither is a sum of
the inputs' `found` / `hit` fields. -/
theorem mergeLineCoverage_found_hit (ex inc : LinesData)
    (hex : (ex.details.map (fun d => d.line)).Nodup)
    (hinc : (inc.details.map (fun d => d.line)).Nodup) :
    (mergeLineCoverage ex inc).found =
        ((ex.details.map (fun d => d.line)) ++ (inc.details.map (fun d => d.line))).toFinset.card ∧
      (mergeLineCoverage ex inc).hit =
        ((mergeLineCoverage ex inc).details.filter (fun d => decide (0 < d.hit))).length := by
  constructor
  · rw [mergeLineCoverage_eq]
    show ex.details.length + _ = _
    rw [List.toFinset_append]
    have hA : ex.details.length = (ex.details.map (fun d => d.line)).toFinset.card := by
      rw [List.toFinset_card_of_nodup hex, List.length_map]
    have hfilt : (inc.details.filter
          (fun d => decide (d.line ∉ (ex.details.map (fun x => x.line)).toFinset))).length =
        ((inc.details.map (fun d => d.line)).filter
          (fun n => decide (n ∉ (ex.details.map (fun x => x.line)).toFinset))).length := by
      rw [← List.countP_eq_length_filter, ← List.countP_eq_length_filter, List.countP_map]
      rfl
    have hB : ((inc.details.map (fun d => d.line)).filter
          (fun n => decide (n ∉ (ex.details.map (fun x => x.line)).toFinset))).length =
        ((inc.details.map (fun d => d.line)).toFinset \
          (ex.details.map (fun d => d.line)).toFinset).card := by
      rw [← List.toFinset_card_of_nodup (hinc.filter _), List.toFinset_filter,
        Finset.sdiff_eq_filter]
      congr 1
      refine Finset.filter_congr ?_
      intro x _
      simp
    rw [hfilt, hB, hA, Nat.add_comm, Finset.card_sdiff_add_card, Finset.union_comm]
  · rw [mergeLineCoverage_eq]
    dsimp only
    rw [List.filter_append, List.length_append]

/-- C5 (witness): the merged counters on concrete well-formed line data. -/
theorem mergeLineCoverage_found_hit_witness :
    ((linesExW.details.map (fun d => d.line)).Nodup ∧
        (linesIncW.details.map (fun d => d.line)).Nodup) ∧
      ((mergeLineCoverage linesExW linesIncW).found =
          ((linesExW.details.map (fun d => d.line)) ++
            (linesIncW.details.map (fun d => d.line))).toFinset.card ∧
        (mergeLineCoverage linesExW linesIncW).hit =
          ((mergeLineCoverage linesExW linesIncW).details.filter
            (fun d => decide (0 < d.hit))).length) :=
  ⟨⟨by decide, by decide⟩,
    mergeLineCoverage_found_hit linesExW linesIncW (by decide) (by decide)⟩

/-- C6: branch merge with missing branch data — no incoming branch data keeps
the existing branch data untouched; no existing branch data adopts the
incoming branch data wholesale. -/
theorem mergeBranchCoverage_missing (ex inc : Section) :
    (inc.branches = none → mergeBranchCoverage ex inc = ex.branches) ∧
      (∀ b : BranchesData, ex.branches = none → inc.branches = some b →
        mergeBranchCoverage ex inc = some b) := by
  constructor
  · intro h
    unfold mergeBranchCoverage
    rw [h]
  · intro b h1 h2
    unfold mergeBranchCoverage
    rw [h2, h1]

/-- C6 (witness): both missing-data cases on concrete sections. -/
theorem mergeBranchCoverage_missing_witness :
    mergeBranchCoverage secWithBranches secNoBranches = secWithBranches.branches ∧
      mergeBranchCoverage secNoBranches secWithBranches = some branchesW :=
  ⟨(mergeBranchCoverage_missing secWithBranches secNoBranches).1 rfl,
    (mergeBranchCoverage_missing secNoBranches secWithBranches).2 branchesW rfl rfl⟩

/-- C7: a section produced by `mergeSections` keeps the existing section's
`title` and `file`; only `lines` and `branches` are replaced. -/
theorem mergeSections_preserves_identity (ex s m : Section)
    (h : mergeSections ex s = some m) : m.title = ex.title ∧ m.file = ex.file := by
  unfold mergeSections at h
  split at h
  · injection h with h
    rw [← h]
    exact ⟨rfl, rfl⟩
  · cases h

/-- C7 (witness): the merged section of two concrete sections keeps `title`
and `file`. -/
theorem mergeSections_preserves_identity_witness :
    mergeSections secWithBranches secNoBranches = some secMergedW ∧
      (secMergedW.title = secWithBranches.title ∧
        secMergedW.file = secWithBranches.file) :=
  ⟨by decide,
    mergeSections_preserves_identity secWithBranches secNoBranches secMergedW (by decide)⟩

theorem flatten_map_erase {α β : Type} [BEq α] [LawfulBEq α] (g : α → List β) (l : List α)
    (a : α) (ha : a ∈ l) (hg : g a = []) :
    (l.map g).flatten = ((l.erase a).map g).flatten := by
  induction l with
  | nil => cases ha
  | cons b l ih =>
      rw [List.erase_cons]
      by_cases hba : b = a
      · subst hba
        simp [hg]
      · rw [if_neg (by simpa using hba)]
        have ha' : a ∈ l := by
          rcases List.mem_cons.mp ha with h | h
          · exact absurd h.symm hba
          · exact h
        rw [List.map_cons, List.map_cons, List.flatten_cons, List.flatten_cons, ih ha']

/-- C9: a file whose parse fails contributes zero sections — the aggregated
map is the same as if the file had not been supplied at all, so the other
files' sections are still merged and the failure never aborts the
aggregation. -/
theorem filesToSections_parse_failure (oracle : String → String → ParseOutcome)
    (files : List (String × String)) (f : String × String)
    (hmem : f ∈ files) (hfail : oracle f.1 f.2 = ParseOutcome.failed) :
    filesToSections oracle files = filesToSections oracle (files.erase f) := by
  have hg : fileSections oracle f.1 f.2 = [] := by
    unfold fileSections
    rw [hfail]
  unfold filesToSections
  dsimp only
  exact congrArg (addSections [])
    (flatten_map_erase (fun p => fileSections oracle p.1 p.2) files f hmem hg)

/-- C9 (witness): a concrete two-file run in which the second file fails to
parse; the aggregation equals the one-file run. -/
theorem filesToSections_parse_failure_witness :
    (("b.xml", "bad") ∈ filesW ∧ oracleW "b.xml" "bad" = ParseOutcome.failed) ∧
      filesToSections oracleW filesW =
        filesToSections oracleW (filesW.erase ("b.xml", "bad")) :=
  ⟨⟨by decide, by decide⟩,
    filesToSections_parse_failure oracleW filesW ("b.xml", "bad") (by decide) (by decide)⟩

end CovGutters
